import Mathlib

/-!
Verification of the mouse-juggler trajectory generator and scheduler.

Shallow embedding of `mouse_juggler.py` over the rationals.  Python floats
are idealised as `ℚ`; `int()` / `astype(int)` is truncation toward zero;
every random draw (Gaussian per-point noise, control-point curvature,
step-count jitter, sampled speed) is passed as an explicit parameter, and
the threading clock is modelled by an explicit current time together with
the instant `stopTime` at which the shared stop event becomes set (the
event is observed set at machine time `t` iff `stopTime ≤ t`).  Euclidean
distances (`np.linalg.norm`) are characterised by the predicate `IsDist`
because `ℚ` has no square root.
-/

namespace MouseJuggler

/-- Python `int(x)` / numpy `astype(int)`: truncation toward zero. -/
def pyTrunc (x : ℚ) : ℤ := if 0 ≤ x then ⌊x⌋ else ⌈x⌉

/-- Python `x % m` (floor modulo, as used for `pause % 0.05` and
`total_pause % 1`). -/
def pyMod (x m : ℚ) : ℚ := x - m * ⌊x / m⌋

/-- Predicate stating that `d` is the Euclidean distance from `p` to `q` (characterised by its
square, since `ℚ` has no square root; `np.linalg.norm`). -/
def IsDist (p q : ℚ × ℚ) (d : ℚ) : Prop :=
  0 ≤ d ∧ d ^ 2 = (q.1 - p.1) ^ 2 + (q.2 - p.2) ^ 2

instance (p q : ℚ × ℚ) (d : ℚ) : Decidable (IsDist p q d) := by
  unfold IsDist; infer_instance

/-- Easing function `ease_in_out_cubic` of `mouse_juggler.py` (lines 37-43). -/
def ease_in_out_cubic (t : ℚ) : ℚ :=
  if t < 1 / 2 then 4 * t * t * t
  else 1 / 2 * (2 * t - 2) * (2 * t - 2) * (2 * t - 2) + 1

/-- Easing function `ease_in_out_quartic` of `mouse_juggler.py` (lines 45-51). -/
def ease_in_out_quartic (t : ℚ) : ℚ :=
  if t < 1 / 2 then 8 * t * t * t * t
  else -8 * (t - 1) * (t - 1) * (t - 1) * (t - 1) + 1

/-- The `i`-th entry of `np.linspace(0, 1, n)`. -/
def linT (n i : ℕ) : ℚ := if n ≤ 1 then 0 else (i : ℚ) / ((n : ℚ) - 1)

/-- The list `np.linspace(0, 1, n)` (`n = 1` gives `[0]`). -/
def linspace01 (n : ℕ) : List ℚ := (List.range n).map (linT n)

/-- One coordinate of the cubic Bezier formula of `cubic_bezier_curve`. -/
def bezier1 (a b c d u : ℚ) : ℚ :=
  (1 - u) ^ 3 * a + 3 * (1 - u) ^ 2 * u * b + 3 * (1 - u) * u ^ 2 * c +
    u ^ 3 * d

/-- Function `cubic_bezier_curve` (lines 53-73): evaluate the cubic Bezier through
`p0 p1 p2 p3` at quartic-eased `linspace` parameters, add the Gaussian
per-point noise draw `noise` (passed explicitly), truncate to `int`. -/
def cubic_bezier_curve (p0 p1 p2 p3 : ℚ × ℚ) (numPoints : ℕ)
    (noise : ℕ → ℚ × ℚ) : List (ℤ × ℤ) :=
  (List.range numPoints).map (fun i =>
    let u := ease_in_out_quartic (linT numPoints i)
    (pyTrunc (bezier1 p0.1 p1.1 p2.1 p3.1 u + (noise i).1),
     pyTrunc (bezier1 p0.2 p1.2 p2.2 p3.2 u + (noise i).2)))

/-- Function `natural_trajectory` (lines 75-98).  `dist` is the Euclidean distance
(see `IsDist`); `c1 c2` are the two `random.uniform(-dist/3, dist/3)`
curvature draws; `noise` is the per-point noise draw of the curve. -/
def natural_trajectory (origin destination : ℚ × ℚ) (dist : ℚ)
    (c1 c2 : ℚ) (noise : ℕ → ℚ × ℚ) (steps : ℕ) : List (ℚ × ℚ) :=
  if dist < 1 then [origin]
  else
    let vec := (destination.1 - origin.1, destination.2 - origin.2)
    let perp := (-vec.2 / dist, vec.1 / dist)
    let control1 := (origin.1 + vec.1 * (3 / 10) + perp.1 * c1,
                     origin.2 + vec.2 * (3 / 10) + perp.2 * c1)
    let control2 := (origin.1 + vec.1 * (7 / 10) + perp.1 * c2,
                     origin.2 + vec.2 * (7 / 10) + perp.2 * c2)
    (cubic_bezier_curve origin control1 control2 destination steps
        noise).map (fun p => ((p.1 : ℚ), (p.2 : ℚ)))

/-- The `points_factor` of `human_move` (line 108): `min(1.0, distance/500)`. -/
def points_factor (distance : ℚ) : ℚ := min 1 (distance / 500)

/-- The adaptive step count of `human_move` (line 111), with the
`random.randint(5, 15)` jitter draw passed explicitly. -/
def adaptive_steps (minSteps maxSteps : ℤ) (distance : ℚ) (jitter : ℤ) :
    ℤ :=
  pyTrunc ((minSteps : ℚ) +
    ((maxSteps : ℚ) - (minSteps : ℚ)) * points_factor distance) + jitter

/-- The `total_time` of `human_move` (line 142): division-by-zero guard
`total_distance / max(speed, 0.001)`. -/
def total_time (totalDistance speed : ℚ) : ℚ :=
  totalDistance / max speed (1 / 1000)

/-- Embedding of `np.diff`: differences of consecutive list entries. -/
def npDiff (l : List ℚ) : List ℚ := List.zipWith (fun a b => b - a) l l.tail

/-- The per-segment delay list of `human_move` (lines 144-156) for a
trajectory of `n` points: cubic-eased `linspace` progress, consecutive
differences, normalised to sum to `totalTime` (with the degenerate
fallbacks of the source). -/
def time_diffs (n : ℕ) (totalTime : ℚ) : List ℚ :=
  if 1 < n then
    if 0 < (npDiff ((linspace01 n).map ease_in_out_cubic)).sum then
      (npDiff ((linspace01 n).map ease_in_out_cubic)).map
        (fun d =>
          d / (npDiff ((linspace01 n).map ease_in_out_cubic)).sum *
            totalTime)
    else
      (npDiff ((linspace01 n).map ease_in_out_cubic)).map
        (fun _ =>
          totalTime /
            ((npDiff ((linspace01 n).map ease_in_out_cubic)).length : ℚ))
  else [0]

/-- A check-then-sleep loop: `slices` times, observe the stop event at the
current machine time (set iff `stopTime ≤ t`) and return early (`true`) if
set, otherwise sleep one slice of length `slice`.  Instantiated with
`slice = 1/20` for the scheduler (lines 184-187) and `slice = 1` for the
session-loop pauses (lines 283-286). -/
def sliceLoop (slice stopTime : ℚ) : ℕ → ℚ → ℚ × Bool
  | 0, t => (t, false)
  | k + 1, t =>
      if stopTime ≤ t then (t, true)
      else sliceLoop slice stopTime k (t + slice)

/-- The inter-step wait of `human_move` (lines 181-193): a wait above the
0.05 s threshold (when a stop event was passed) is sliced into
`int(pause/0.05)` checked 0.05 s sleeps plus an unchecked `pause % 0.05`
remainder; otherwise one single sleep `max(0.001, pause)`.  Returns the
machine time at which the wait ends and whether it returned early. -/
def humanMoveWait (stop_evt : Bool) (stopTime pause t : ℚ) : ℚ × Bool :=
  if 1 / 20 < pause ∧ stop_evt = true then
    match sliceLoop (1 / 20) stopTime (⌊pause / (1 / 20)⌋).toNat t with
    | (t2, true) => (t2, true)
    | (t2, false) =>
        if 0 < pyMod pause (1 / 20) then (t2 + pyMod pause (1 / 20), false)
        else (t2, false)
  else (t + max (1 / 1000) pause, false)

/-- Integer-rounded pointer-move coordinates (`int(float(...))`). -/
def truncPoint (p : ℚ × ℚ) : ℤ × ℤ := (pyTrunc p.1, pyTrunc p.2)

/-- The movement loop of `human_move` (lines 159-193) over the
intermediate points `pts = point_list[:-1]`: at each step observe the
stop event and break if set, otherwise issue the truncated pointer move,
then perform the inter-step wait (`time_diffs[i]`, default `0.01`).
Returns the end time, the issued moves and whether the wait returned
early (the `return` on line 186, which skips the final move). -/
def execLoop (stop_evt : Bool) (stopTime : ℚ) (delays : List ℚ) :
    List (ℚ × ℚ) → ℕ → ℚ → ℚ × List (ℤ × ℤ) × Bool
  | [], _, t => (t, [], false)
  | p :: rest, i, t =>
      if stop_evt = true ∧ stopTime ≤ t then (t, [], false)
      else
        match humanMoveWait stop_evt stopTime (delays.getD i (1 / 100)) t
          with
        | (t2, true) => (t2, [truncPoint p], true)
        | (t2, false) =>
            match execLoop stop_evt stopTime delays rest (i + 1) t2 with
            | (t3, ms, e) => (t3, truncPoint p :: ms, e)

/-- The full pointer-move effect of `human_move` (lines 159-202): run the
loop over `pts[:-1]`, then issue the exact truncated destination as a
final move unless the wait returned early, the stop event is observed
set, or the point list is empty. -/
def human_move_exec (stop_evt : Bool) (stopTime : ℚ) (pts : List (ℚ × ℚ))
    (delays : List ℚ) (destination : ℚ × ℚ) (t0 : ℚ) : List (ℤ × ℤ) :=
  match execLoop stop_evt stopTime delays pts.dropLast 0 t0 with
  | (tEnd, moves, early) =>
      if early then moves
      else if stop_evt = true ∧ stopTime ≤ tEnd then moves
      else if pts.isEmpty then moves
      else moves ++ [truncPoint destination]

/-- The normal inter-movement pause of `movement_loop` (lines 283-289):
`int(total_pause)` checked 1 s sleeps (breaking if the stop event is
observed set), then the `total_pause % 1` remainder, slept only if the
stop event is still unset.  Returns the machine time at which the pause
ends. -/
def movement_loop_pause (stopTime totalPause t : ℚ) : ℚ :=
  match sliceLoop 1 stopTime (pyTrunc totalPause).toNat t with
  | (t2, true) => t2
  | (t2, false) => if stopTime ≤ t2 then t2 else t2 + pyMod totalPause 1

/-- The configuration assembled by `MouseJugglerApp._current_cfg`
(lines 568-575): the five `(low, high)` ranges. -/
structure Config where
  dxLow : ℤ
  dxHigh : ℤ
  dyLow : ℤ
  dyHigh : ℤ
  pauseLow : ℚ
  pauseHigh : ℚ
  stepsLow : ℤ
  stepsHigh : ℤ
  velLow : ℚ
  velHigh : ℚ
deriving DecidableEq

/-- The launch performed by `MouseJugglerApp.start`: the stop event is
cleared and the worker thread is handed the configuration snapshot. -/
structure SessionLaunch where
  stopEventSet : Bool
  workerCfg : Config
deriving DecidableEq

/-- Method `MouseJugglerApp.start` (lines 580-599): a no-op if a worker is
already alive; otherwise clear the stop event and launch the movement
loop worker with the current configuration.  The source performs no
validation of the configuration and defines no error type. -/
def appStart (workerAlive : Bool) (cfg : Config) : Option SessionLaunch :=
  if workerAlive then none
  else some ⟨false, cfg⟩

/-- Validity of a configuration in the words of the specification
(sections 6 and 7): every range has low ≤ high, and displacement, pause,
step-count and speed values are positive.  This definition follows the
SPEC, for comparison with `appStart`, which checks none of it. -/
def specValidConfig (cfg : Config) : Prop :=
  0 < cfg.dxLow ∧ cfg.dxLow ≤ cfg.dxHigh ∧
  0 < cfg.dyLow ∧ cfg.dyLow ≤ cfg.dyHigh ∧
  0 < cfg.pauseLow ∧ cfg.pauseLow ≤ cfg.pauseHigh ∧
  0 < cfg.stepsLow ∧ cfg.stepsLow ≤ cfg.stepsHigh ∧
  0 < cfg.velLow ∧ cfg.velLow ≤ cfg.velHigh

instance (cfg : Config) : Decidable (specValidConfig cfg) := by
  unfold specValidConfig; infer_instance

/-- The all-zero per-point noise draw. -/
def zeroNoise : ℕ → ℚ × ℚ := fun _ => (0, 0)

/-- A noise draw that perturbs the first trajectory point by `(2, 0)`. -/
def endpointNoise : ℕ → ℚ × ℚ := fun i => if i = 0 then (2, 0) else (0, 0)

/-- A configuration whose ΔX range has low 300 > high 80. -/
def badConfig : Config := ⟨300, 80, 80, 300, 3 / 2, 7, 60, 150, 200, 800⟩

lemma pyTrunc_intCast (n : ℤ) : pyTrunc (n : ℚ) = n := by
  unfold pyTrunc
  split_ifs with h
  · exact Int.floor_intCast n
  · exact Int.ceil_intCast n

lemma pyTrunc_mono {x y : ℚ} (h : x ≤ y) : pyTrunc x ≤ pyTrunc y := by
  unfold pyTrunc
  by_cases hx : 0 ≤ x
  · rw [if_pos hx, if_pos (le_trans hx h)]
    exact Int.floor_le_floor h
  · rw [if_neg hx]
    by_cases hy : 0 ≤ y
    · rw [if_pos hy]
      calc ⌈x⌉ ≤ 0 := Int.ceil_le.2 (by push_cast; linarith [le_of_not_le hx])
        _ ≤ ⌊y⌋ := Int.floor_nonneg.2 hy
    · rw [if_neg hy]
      exact Int.ceil_le_ceil h

lemma pyTrunc_eq_floor {x : ℚ} (h : 0 ≤ x) : pyTrunc x = ⌊x⌋ := if_pos h

lemma pyMod_nonneg {m : ℚ} (x : ℚ) (hm : 0 < m) : 0 ≤ pyMod x m := by
  have h := Int.fract_nonneg (x / m)
  have hfr : pyMod x m = m * Int.fract (x / m) := by
    unfold pyMod Int.fract
    field_simp
  rw [hfr]
  positivity

lemma pyMod_lt {m : ℚ} (x : ℚ) (hm : 0 < m) : pyMod x m < m := by
  have h := Int.fract_lt_one (x / m)
  have hfr : pyMod x m = m * Int.fract (x / m) := by
    unfold pyMod Int.fract
    field_simp
  rw [hfr]
  calc m * Int.fract (x / m) < m * 1 := by
        exact mul_lt_mul_of_pos_left h hm
    _ = m := mul_one m

lemma ease_cubic_mono {a b : ℚ} (h : a ≤ b) :
    ease_in_out_cubic a ≤ ease_in_out_cubic b := by
  unfold ease_in_out_cubic
  split_ifs with h1 h2 h2
  · nlinarith [sq_nonneg (a + b), sq_nonneg (a - b)]
  · have ha : 4 * a * a * a ≤ 1 / 2 := by
      nlinarith [mul_nonneg (by linarith : (0 : ℚ) ≤ 1 / 2 - a)
        (by nlinarith [sq_nonneg (a + 1 / 4)] :
          (0 : ℚ) ≤ a * a + a / 2 + 1 / 4)]
    have hb : (0 : ℚ) ≤ (2 * b - 2 + 1) * ((2 * b - 2) ^ 2 - (2 * b - 2) + 1) := by
      have h3 : (0 : ℚ) ≤ 2 * b - 2 + 1 := by linarith
      have h4 : (0 : ℚ) ≤ (2 * b - 2) ^ 2 - (2 * b - 2) + 1 := by
        nlinarith [sq_nonneg (2 * b - 3)]
      exact mul_nonneg h3 h4
    nlinarith [hb]
  · exact absurd (lt_of_le_of_lt h h2) (fun hc => h1 hc)
  · nlinarith [sq_nonneg ((2 * a - 2) + (2 * b - 2)),
      sq_nonneg ((2 * a - 2) - (2 * b - 2))]

lemma ease_quartic_mono {a b : ℚ} (h0 : 0 ≤ a) (hab : a ≤ b) (h1 : b ≤ 1) :
    ease_in_out_quartic a ≤ ease_in_out_quartic b := by
  unfold ease_in_out_quartic
  split_ifs with ha hb hb
  · nlinarith [mul_nonneg (mul_nonneg (sub_nonneg.2 hab)
      (by linarith : (0 : ℚ) ≤ a + b))
      (add_nonneg (mul_self_nonneg a) (mul_self_nonneg b))]
  · have hA : 8 * a * a * a * a ≤ 1 / 2 := by
      have ha2 : a * a ≤ 1 / 4 := by nlinarith
      nlinarith [mul_self_nonneg (a * a)]
    have hB : (1 : ℚ) / 2 ≤ -8 * (b - 1) * (b - 1) * (b - 1) * (b - 1) + 1 := by
      have hb1 : (1 - b) ≤ 1 / 2 := by linarith
      have hb0 : (0 : ℚ) ≤ 1 - b := by linarith
      have hb2 : (1 - b) * (1 - b) ≤ 1 / 4 := by nlinarith
      nlinarith [mul_self_nonneg ((1 - b) * (1 - b))]
    linarith
  · exact absurd (lt_of_le_of_lt hab hb) (fun hc => ha hc)
  · have hb0 : (0 : ℚ) ≤ 1 - b := by linarith
    have hba : 1 - b ≤ 1 - a := by linarith
    have key : (1 - b) * (1 - b) * ((1 - b) * (1 - b)) ≤
        (1 - a) * (1 - a) * ((1 - a) * (1 - a)) := by
      have h2 : (1 - b) * (1 - b) ≤ (1 - a) * (1 - a) := by nlinarith
      have h3 : (0 : ℚ) ≤ (1 - b) * (1 - b) := mul_self_nonneg _
      nlinarith [mul_self_nonneg (1 - a)]
    nlinarith [key]

lemma ease_quartic_zero : ease_in_out_quartic 0 = 0 := by
  norm_num [ease_in_out_quartic]

lemma ease_quartic_one : ease_in_out_quartic 1 = 1 := by
  norm_num [ease_in_out_quartic]

lemma ease_cubic_zero : ease_in_out_cubic 0 = 0 := by
  norm_num [ease_in_out_cubic]

lemma ease_cubic_one : ease_in_out_cubic 1 = 1 := by
  norm_num [ease_in_out_cubic]

lemma ease_quartic_nonneg {t : ℚ} (h0 : 0 ≤ t) (h1 : t ≤ 1) :
    0 ≤ ease_in_out_quartic t := by
  have := ease_quartic_mono (le_refl 0) h0 h1
  linarith [ease_quartic_zero ▸ this]

lemma ease_quartic_le_one {t : ℚ} (h0 : 0 ≤ t) (h1 : t ≤ 1) :
    ease_in_out_quartic t ≤ 1 := by
  have := ease_quartic_mono h0 h1 (le_refl 1)
  linarith [ease_quartic_one ▸ this]

/-- Claim C10: both easing functions are point-symmetric about
`(1/2, 1/2)`: `ease(t) + ease(1 - t) = 1` on `[0, 1]`; both map `0 ↦ 0`,
`1 ↦ 1`, `1/2 ↦ 1/2`, and both are monotonically non-decreasing on
`[0, 1]`. -/
theorem C10_easing_symmetry (t : ℚ) (h0 : 0 ≤ t) (h1 : t ≤ 1) :
    ease_in_out_cubic t + ease_in_out_cubic (1 - t) = 1 ∧
    ease_in_out_quartic t + ease_in_out_quartic (1 - t) = 1 ∧
    ease_in_out_cubic 0 = 0 ∧ ease_in_out_cubic 1 = 1 ∧
    ease_in_out_cubic (1 / 2) = 1 / 2 ∧
    ease_in_out_quartic 0 = 0 ∧ ease_in_out_quartic 1 = 1 ∧
    ease_in_out_quartic (1 / 2) = 1 / 2 ∧
    (∀ a b : ℚ, 0 ≤ a → a ≤ b → b ≤ 1 →
      ease_in_out_cubic a ≤ ease_in_out_cubic b ∧
      ease_in_out_quartic a ≤ ease_in_out_quartic b) := by
  refine ⟨?_, ?_, ease_cubic_zero, ease_cubic_one,
    by norm_num [ease_in_out_cubic], ease_quartic_zero, ease_quartic_one,
    by norm_num [ease_in_out_quartic], fun a b ha hab hb =>
      ⟨ease_cubic_mono hab, ease_quartic_mono ha hab hb⟩⟩
  · unfold ease_in_out_cubic
    split_ifs with ha hb hb
    · linarith
    · ring
    · ring
    · have ht : t = 1 / 2 :=
        le_antisymm (by linarith [le_of_not_lt hb])
          (le_of_not_lt ha)
      rw [ht]; norm_num
  · unfold ease_in_out_quartic
    split_ifs with ha hb hb
    · linarith
    · ring
    · ring
    · have ht : t = 1 / 2 :=
        le_antisymm (by linarith [le_of_not_lt hb])
          (le_of_not_lt ha)
      rw [ht]; norm_num

/-- Witness for C10 at `t = 1/4`. -/
theorem C10_easing_symmetry_witness :
    (0 : ℚ) ≤ 1 / 4 ∧ (1 / 4 : ℚ) ≤ 1 ∧
    (ease_in_out_cubic (1 / 4) + ease_in_out_cubic (1 - 1 / 4) = 1 ∧
     ease_in_out_quartic (1 / 4) + ease_in_out_quartic (1 - 1 / 4) = 1 ∧
     ease_in_out_cubic 0 = 0 ∧ ease_in_out_cubic 1 = 1 ∧
     ease_in_out_cubic (1 / 2) = 1 / 2 ∧
     ease_in_out_quartic 0 = 0 ∧ ease_in_out_quartic 1 = 1 ∧
     ease_in_out_quartic (1 / 2) = 1 / 2 ∧
     (∀ a b : ℚ, 0 ≤ a → a ≤ b → b ≤ 1 →
       ease_in_out_cubic a ≤ ease_in_out_cubic b ∧
       ease_in_out_quartic a ≤ ease_in_out_quartic b)) :=
  ⟨by norm_num, by norm_num,
    C10_easing_symmetry (1 / 4) (by norm_num) (by norm_num)⟩

/-- Claim C8: for origin/destination at Euclidean distance below the
epsilon 1 (which includes origin = destination, whose distance is 0), the
generator returns the single-point trajectory `[origin]`; the
perpendicular normalisation `perp = (-vec.y, vec.x) / dist` is never
evaluated, so no division by zero occurs and no error propagates (the
embedding is a total function). -/
theorem C8_degenerate_single_point (origin destination : ℚ × ℚ)
    (dist c1 c2 : ℚ) (noise : ℕ → ℚ × ℚ) (steps : ℕ)
    (hd : IsDist origin destination dist) (hsmall : dist < 1) :
    natural_trajectory origin destination dist c1 c2 noise steps =
      [origin] ∧ ∀ p : ℚ × ℚ, IsDist p p 0 := by
  refine ⟨?_, fun p => ⟨le_refl 0, by ring⟩⟩
  unfold natural_trajectory
  rw [if_pos hsmall]

/-- Witness for C8 at origin = destination = (5, 5). -/
theorem C8_degenerate_single_point_witness :
    IsDist ((5 : ℚ), (5 : ℚ)) ((5 : ℚ), (5 : ℚ)) 0 ∧ (0 : ℚ) < 1 ∧
    (natural_trajectory ((5 : ℚ), (5 : ℚ)) ((5 : ℚ), (5 : ℚ)) 0 3 4
        zeroNoise 20 = [((5 : ℚ), (5 : ℚ))] ∧ ∀ p : ℚ × ℚ, IsDist p p 0) :=
  ⟨by norm_num [IsDist], by norm_num,
    C8_degenerate_single_point _ _ _ _ _ _ _ (by norm_num [IsDist])
      (by norm_num)⟩

/-- Claim C2 counterexample: `start` launches the movement-loop worker
for a configuration whose ΔX range has low 300 > high 80, and surfaces no
error — no configuration validation exists in the code, contradicting the
claim that such a session does not launch. -/
theorem C2_counterexample :
    appStart false badConfig = some ⟨false, badConfig⟩ ∧
    ¬ specValidConfig badConfig := by
  refine ⟨rfl, fun h => ?_⟩
  have h2 := h.2.1
  norm_num [badConfig] at h2

/-- Claim C2 amended: `start` performs no validation at all: for every
configuration — whether or not it satisfies the spec's range invariants —
if no worker is alive the session launches with the stop event cleared
and the configuration passed through unchanged, and no error is surfaced;
the only guard in `start` is that it is a no-op while a worker is already
alive. -/
theorem C2_start_never_validates (cfg : Config) :
    appStart false cfg = some ⟨false, cfg⟩ ∧ appStart true cfg = none :=
  ⟨rfl, rfl⟩

lemma points_factor_nonneg {d : ℚ} (hd : 0 ≤ d) : 0 ≤ points_factor d :=
  le_min (by norm_num) (div_nonneg hd (by norm_num))

lemma points_factor_le_one (d : ℚ) : points_factor d ≤ 1 :=
  min_le_left _ _

lemma points_factor_mono {d1 d2 : ℚ} (h : d1 ≤ d2) :
    points_factor d1 ≤ points_factor d2 :=
  min_le_min (le_refl 1) ((div_le_div_right (by norm_num)).2 h)

lemma adaptive_steps_arg_bounds (minSteps maxSteps : ℤ) {d : ℚ}
    (hr : minSteps ≤ maxSteps) (hd : 0 ≤ d) :
    (minSteps : ℚ) ≤
      (minSteps : ℚ) + ((maxSteps : ℚ) - minSteps) * points_factor d ∧
    (minSteps : ℚ) + ((maxSteps : ℚ) - minSteps) * points_factor d ≤
      maxSteps := by
  have hr' : (0 : ℚ) ≤ (maxSteps : ℚ) - minSteps := by
    rw [sub_nonneg]; exact_mod_cast hr
  have h0 := points_factor_nonneg hd
  have h1 := points_factor_le_one d
  constructor
  · nlinarith [mul_nonneg hr' h0]
  · nlinarith [mul_nonneg hr' (sub_nonneg.2 h1)]

/-- Claim C6: for a fixed step range with min ≤ max (min non-negative, as
configured step counts are) and a fixed jitter draw, the adaptive step
count of `human_move` is monotonically non-decreasing in the travel
distance; the scaling factor `min(1, d/500)` is exactly 1 for distances
at or above 500; and the result always lies between min and max plus the
jitter bounds 5..15. -/
theorem C6_adaptive_steps_monotone (minSteps maxSteps jitter : ℤ)
    (d1 d2 : ℚ) (hr : minSteps ≤ maxSteps) (hm : 0 ≤ minSteps)
    (hd1 : 0 ≤ d1) (hd12 : d1 ≤ d2) (hj5 : 5 ≤ jitter)
    (hj15 : jitter ≤ 15) :
    adaptive_steps minSteps maxSteps d1 jitter ≤
      adaptive_steps minSteps maxSteps d2 jitter ∧
    (∀ d : ℚ, 0 ≤ d →
      minSteps + 5 ≤ adaptive_steps minSteps maxSteps d jitter ∧
      adaptive_steps minSteps maxSteps d jitter ≤ maxSteps + 15) ∧
    (∀ d : ℚ, 500 ≤ d → points_factor d = 1) := by
  have hm0 : ∀ d : ℚ, 0 ≤ d → (0 : ℚ) ≤
      (minSteps : ℚ) + ((maxSteps : ℚ) - minSteps) * points_factor d := by
    intro d hd
    have := (adaptive_steps_arg_bounds minSteps maxSteps hr hd).1
    have hmq : (0 : ℚ) ≤ (minSteps : ℚ) := by exact_mod_cast hm
    linarith
  refine ⟨?_, fun d hd => ⟨?_, ?_⟩, fun d hd => ?_⟩
  · unfold adaptive_steps
    have harg : (minSteps : ℚ) + ((maxSteps : ℚ) - minSteps) *
        points_factor d1 ≤
        (minSteps : ℚ) + ((maxSteps : ℚ) - minSteps) * points_factor d2 := by
      have hr' : (0 : ℚ) ≤ (maxSteps : ℚ) - minSteps := by
        rw [sub_nonneg]; exact_mod_cast hr
      nlinarith [mul_le_mul_of_nonneg_left (points_factor_mono hd12) hr']
    exact add_le_add_right (pyTrunc_mono harg) jitter
  · unfold adaptive_steps
    rw [pyTrunc_eq_floor (hm0 d hd)]
    have hlow := (adaptive_steps_arg_bounds minSteps maxSteps hr hd).1
    have : minSteps ≤
        ⌊(minSteps : ℚ) + ((maxSteps : ℚ) - minSteps) * points_factor d⌋ :=
      Int.le_floor.2 hlow
    omega
  · unfold adaptive_steps
    rw [pyTrunc_eq_floor (hm0 d hd)]
    have hhigh := (adaptive_steps_arg_bounds minSteps maxSteps hr hd).2
    have hfl := Int.floor_le ((minSteps : ℚ) +
      ((maxSteps : ℚ) - minSteps) * points_factor d)
    have : (⌊(minSteps : ℚ) + ((maxSteps : ℚ) - minSteps) *
        points_factor d⌋ : ℚ) ≤ (maxSteps : ℚ) := le_trans hfl hhigh
    have hle : ⌊(minSteps : ℚ) + ((maxSteps : ℚ) - minSteps) *
        points_factor d⌋ ≤ maxSteps := by exact_mod_cast this
    omega
  · unfold points_factor
    apply min_eq_left
    rw [le_div_iff (by norm_num : (0 : ℚ) < 500)]
    linarith

/-- Witness for C6 with step range (10, 20), jitter 7, distances 100 and
600. -/
theorem C6_adaptive_steps_monotone_witness :
    ((10 : ℤ) ≤ 20 ∧ (0 : ℤ) ≤ 10 ∧ (0 : ℚ) ≤ 100 ∧ (100 : ℚ) ≤ 600 ∧
      (5 : ℤ) ≤ 7 ∧ (7 : ℤ) ≤ 15) ∧
    (adaptive_steps 10 20 100 7 ≤ adaptive_steps 10 20 600 7 ∧
    (∀ d : ℚ, 0 ≤ d →
      (10 : ℤ) + 5 ≤ adaptive_steps 10 20 d 7 ∧
      adaptive_steps 10 20 d 7 ≤ 20 + 15) ∧
    (∀ d : ℚ, 500 ≤ d → points_factor d = 1)) :=
  ⟨by norm_num,
    C6_adaptive_steps_monotone 10 20 7 100 600 (by norm_num) (by norm_num)
      (by norm_num) (by norm_num) (by norm_num) (by norm_num)⟩

lemma linT_nonneg (n i : ℕ) (hi : i < n) : 0 ≤ linT n i := by
  unfold linT
  split_ifs with h
  · exact le_refl 0
  · have : (1 : ℚ) ≤ (n : ℚ) - 1 := by
      have : (2 : ℕ) ≤ n := by omega
      have h2 : (2 : ℚ) ≤ (n : ℚ) := by exact_mod_cast this
      linarith
    positivity

lemma linT_le_one (n i : ℕ) (hi : i < n) : linT n i ≤ 1 := by
  unfold linT
  split_ifs with h
  · norm_num
  · have hn : (2 : ℕ) ≤ n := by omega
    have h2 : (2 : ℚ) ≤ (n : ℚ) := by exact_mod_cast hn
    rw [div_le_one (by linarith)]
    have hi' : i ≤ n - 1 := by omega
    have hc := (Nat.cast_le (α := ℚ)).2 hi'
    have hsub : ((n - 1 : ℕ) : ℚ) = (n : ℚ) - 1 := by
      push_cast [Nat.cast_sub (by omega : (1 : ℕ) ≤ n)]
      ring
    rw [hsub] at hc
    exact hc

lemma linT_mono (n : ℕ) {i j : ℕ} (hij : i ≤ j) : linT n i ≤ linT n j := by
  unfold linT
  split_ifs with h
  · exact le_refl 0
  · have hn : (2 : ℕ) ≤ n := by omega
    have h2 : (2 : ℚ) ≤ (n : ℚ) := by exact_mod_cast hn
    have hij' : (i : ℚ) ≤ (j : ℚ) := by exact_mod_cast hij
    have hpos : (0 : ℚ) ≤ (n : ℚ) - 1 := by linarith
    exact div_le_div_of_nonneg_right hij' hpos

lemma linT_zero (n : ℕ) : linT n 0 = 0 := by
  unfold linT
  split_ifs with h
  · rfl
  · simp

lemma linT_last (n : ℕ) (hn : 2 ≤ n) : linT n (n - 1) = 1 := by
  unfold linT
  rw [if_neg (by omega)]
  have : ((n - 1 : ℕ) : ℚ) = (n : ℚ) - 1 := by
    have : (1 : ℕ) ≤ n := by omega
    push_cast [Nat.cast_sub this]
    ring
  rw [this]
  apply div_self
  have h2 : (2 : ℚ) ≤ (n : ℚ) := by exact_mod_cast hn
  linarith

lemma npDiff_cons_cons (a b : ℚ) (t : List ℚ) :
    npDiff (a :: b :: t) = (b - a) :: npDiff (b :: t) := rfl

lemma npDiff_sum : ∀ l : List ℚ,
    (npDiff l).sum = l.getLast?.getD 0 - l.head?.getD 0
  | [] => by simp [npDiff]
  | [a] => by simp [npDiff]
  | a :: b :: t => by
      rw [npDiff_cons_cons, List.sum_cons, npDiff_sum (b :: t),
        List.getLast?_cons_cons]
      simp only [List.head?_cons, Option.getD_some]
      ring

lemma npDiff_nonneg : ∀ l : List ℚ, l.Chain' (· ≤ ·) →
    ∀ d ∈ npDiff l, 0 ≤ d
  | [], _, d, hd => by simp [npDiff] at hd
  | [a], _, d, hd => by simp [npDiff] at hd
  | a :: b :: t, hc, d, hd => by
      rw [npDiff_cons_cons] at hd
      rcases List.mem_cons.1 hd with h | h
      · have hab := (List.chain'_cons.1 hc).1
        rw [h]; linarith
      · exact npDiff_nonneg (b :: t) (List.chain'_cons.1 hc).2 d h

lemma mapRange_head? {α : Type} (g : ℕ → α) (n : ℕ) (hn : 1 ≤ n) :
    ((List.range n).map g).head? = some (g 0) := by
  cases n with
  | zero => omega
  | succ m => rw [List.range_succ_eq_map]; rfl

lemma mapRange_getLast? {α : Type} (g : ℕ → α) (n : ℕ) (hn : 1 ≤ n) :
    ((List.range n).map g).getLast? = some (g (n - 1)) := by
  cases n with
  | zero => omega
  | succ m =>
      rw [List.range_succ, List.map_append]
      simp [List.getLast?_concat]

lemma mapRange_length {α : Type} (g : ℕ → α) (n : ℕ) :
    ((List.range n).map g).length = n := by
  rw [List.length_map, List.length_range]

lemma eased_chain (n : ℕ) :
    ((linspace01 n).map ease_in_out_cubic).Chain' (· ≤ ·) := by
  unfold linspace01
  rw [List.map_map]
  rw [List.chain'_map]
  cases n with
  | zero => simp
  | succ m =>
      rw [List.chain'_range_succ]
      intro k hk
      exact ease_cubic_mono (linT_mono _ (Nat.le_succ k))

lemma eased_diff_sum (n : ℕ) (hn : 2 ≤ n) :
    (npDiff ((linspace01 n).map ease_in_out_cubic)).sum = 1 := by
  rw [npDiff_sum]
  unfold linspace01
  rw [List.map_map, mapRange_head? _ _ (by omega),
    mapRange_getLast? _ _ (by omega)]
  simp only [Function.comp_apply, Option.getD_some]
  rw [linT_zero, linT_last n hn, ease_cubic_zero, ease_cubic_one]
  norm_num

lemma sum_map_mul (l : List ℚ) (c : ℚ) :
    (l.map (fun d => d * c)).sum = l.sum * c := by
  induction l with
  | nil => simp
  | cons a t ih => simp [List.sum_cons, ih, add_mul]

/-- Claim C3: for every trajectory with at least two points, each
per-segment delay produced by `human_move` is non-negative, and the
delays sum exactly (hence within any tolerance) to the computed total
travel time, i.e. path length divided by the sampled speed guarded below
by 0.001. -/
theorem C3_delays_nonneg_sum (n : ℕ) (totalDistance speed : ℚ)
    (hn : 2 ≤ n) (hdist : 0 ≤ totalDistance) :
    (∀ d ∈ time_diffs n (total_time totalDistance speed), 0 ≤ d) ∧
    (time_diffs n (total_time totalDistance speed)).sum =
      total_time totalDistance speed := by
  have hT : 0 ≤ total_time totalDistance speed := by
    unfold total_time
    apply div_nonneg hdist
    calc (0 : ℚ) ≤ 1 / 1000 := by norm_num
      _ ≤ max speed (1 / 1000) := le_max_right _ _
  have hs1 := eased_diff_sum n hn
  unfold time_diffs
  rw [if_pos (by omega : 1 < n), if_pos (by rw [hs1]; norm_num)]
  constructor
  · intro d hd
    rcases List.mem_map.1 hd with ⟨x, hx, rfl⟩
    have hx0 := npDiff_nonneg _ (eased_chain n) x hx
    rw [hs1, div_one]
    exact mul_nonneg hx0 hT
  · have : (npDiff ((linspace01 n).map ease_in_out_cubic)).map
        (fun d => d / (npDiff ((linspace01 n).map ease_in_out_cubic)).sum *
          total_time totalDistance speed) =
        (npDiff ((linspace01 n).map ease_in_out_cubic)).map
        (fun d => d * total_time totalDistance speed) := by
      apply List.map_congr_left
      intro d _
      rw [hs1, div_one]
    rw [this, sum_map_mul, hs1, one_mul]

/-- Witness for C3 with 3 points, path length 2, speed 1. -/
theorem C3_delays_nonneg_sum_witness :
    (2 : ℕ) ≤ 3 ∧ (0 : ℚ) ≤ 2 ∧
    ((∀ d ∈ time_diffs 3 (total_time 2 1), 0 ≤ d) ∧
      (time_diffs 3 (total_time 2 1)).sum = total_time 2 1) :=
  ⟨by norm_num, by norm_num,
    C3_delays_nonneg_sum 3 2 1 (by norm_num) (by norm_num)⟩

lemma sliceLoop_bound (slice stopTime : ℚ) :
    ∀ (k : ℕ) (t : ℚ), (sliceLoop slice stopTime k t).1 ≤ t ∨
      (sliceLoop slice stopTime k t).1 < stopTime + slice := by
  intro k
  induction k with
  | zero => intro t; left; exact le_refl t
  | succ m ih =>
      intro t
      rw [sliceLoop]
      split_ifs with h
      · left; exact le_refl t
      · rcases ih (t + slice) with h2 | h2
        · right
          have ht : t < stopTime := lt_of_not_le h
          linarith
        · right; exact h2

/-- Worst-case end time of a scheduler wait that begins no later than the
stop instant: strictly less than `stopTime + 1/10` (one 0.05 s slice plus
the sub-slice remainder). -/
lemma wait_latency (pause t stopTime : ℚ) (hts : t ≤ stopTime) :
    (humanMoveWait true stopTime pause t).1 - stopTime < 1 / 10 := by
  unfold humanMoveWait
  by_cases h : 1 / 20 < pause ∧ (true : Bool) = true
  · rw [if_pos h]
    rcases hsl : sliceLoop (1 / 20) stopTime (⌊pause / (1 / 20)⌋).toNat t
      with ⟨t2, early⟩
    have hb := sliceLoop_bound (1 / 20) stopTime
      (⌊pause / (1 / 20)⌋).toNat t
    rw [hsl] at hb
    simp only at hb
    have hmod0 := pyMod_nonneg pause (by norm_num : (0 : ℚ) < 1 / 20)
    have hmod1 := pyMod_lt pause (by norm_num : (0 : ℚ) < 1 / 20)
    cases early with
    | true =>
        show t2 - stopTime < 1 / 10
        rcases hb with h2 | h2 <;> linarith
    | false =>
        show (if 0 < pyMod pause (1 / 20)
          then (t2 + pyMod pause (1 / 20), false)
          else (t2, false)).1 - stopTime < 1 / 10
        split_ifs with hrem
        · show t2 + pyMod pause (1 / 20) - stopTime < 1 / 10
          rcases hb with h2 | h2 <;> linarith
        · show t2 - stopTime < 1 / 10
          rcases hb with h2 | h2 <;> linarith
  · rw [if_neg h]
    have hp : pause ≤ 1 / 20 := by
      by_contra hc
      exact h ⟨lt_of_not_le hc, rfl⟩
    have hmax : max (1 / 1000) pause ≤ 1 / 20 :=
      max_le (by norm_num) hp
    show t + max (1 / 1000) pause - stopTime < 1 / 10
    linarith

/-- Claim C4 counterexample: for a wait of 0.08 s with the stop event
becoming set at t = 0.001 (just after the single slice check at t = 0),
the scheduler sleeps the full 0.05 s slice plus the unchecked 0.03 s
remainder and ends the wait at t = 0.08 without an early return, a stop
latency of 0.079 s — strictly greater than one 0.05 s slice, refuting
the claimed one-slice worst-case latency. -/
theorem C4_counterexample :
    (1 : ℚ) / 20 < 2 / 25 ∧ (0 : ℚ) ≤ 1 / 1000 ∧
    humanMoveWait true (1 / 1000) (2 / 25) 0 = (2 / 25, false) ∧
    (1 : ℚ) / 20 < 2 / 25 - 1 / 1000 := by
  refine ⟨by norm_num, by norm_num, ?_, by norm_num⟩
  unfold humanMoveWait
  rw [if_pos ⟨by norm_num, rfl⟩]
  have hfl : ⌊(2 / 25 : ℚ) / (1 / 20)⌋ = 1 := by
    rw [Int.floor_eq_iff]
    norm_num
  rw [hfl]
  have h1 : sliceLoop (1 / 20) (1 / 1000) (Int.toNat 1) 0 =
      (1 / 20, false) := by
    show sliceLoop (1 / 20) (1 / 1000) 1 0 = (1 / 20, false)
    rw [sliceLoop, if_neg (by norm_num), sliceLoop]
    norm_num
  rw [h1]
  have hmod : pyMod (2 / 25) (1 / 20) = 3 / 100 := by
    unfold pyMod
    rw [hfl]
    norm_num
  simp only [hmod]
  rw [if_pos (by norm_num)]
  norm_num

/-- Claim C4 amended: in the scheduler with a stop event, a wait at or
below the 0.05 s threshold is one single sleep of `max(0.001, pause)`; a
longer wait is sliced with a cancellation check before every full slice,
and if the signal is set when the wait starts the scheduler returns
early immediately; the worst-case stop latency is strictly less than
two slices (one 0.05 s slice plus the unchecked sub-slice remainder),
not one slice. -/
theorem C4_sliced_wait (pause t stopTime : ℚ) (hts : t ≤ stopTime) :
    (pause ≤ 1 / 20 →
      humanMoveWait true stopTime pause t =
        (t + max (1 / 1000) pause, false)) ∧
    (1 / 20 < pause → stopTime = t →
      humanMoveWait true stopTime pause t = (t, true)) ∧
    (humanMoveWait true stopTime pause t).1 - stopTime < 1 / 10 := by
  refine ⟨?_, ?_, wait_latency pause t stopTime hts⟩
  · intro hp
    unfold humanMoveWait
    rw [if_neg (fun hc => absurd hc.1 (not_lt.2 hp))]
  · intro hp hst
    unfold humanMoveWait
    rw [if_pos ⟨hp, rfl⟩]
    have hsegs : (1 : ℤ) ≤ ⌊pause / (1 / 20)⌋ := by
      apply Int.le_floor.2
      rw [le_div_iff (by norm_num)]
      push_cast
      linarith
    obtain ⟨m, hm⟩ : ∃ m, (⌊pause / (1 / 20)⌋).toNat = m + 1 :=
      ⟨(⌊pause / (1 / 20)⌋).toNat - 1, by omega⟩
    rw [hm]
    have hstep : sliceLoop (1 / 20) stopTime (m + 1) t = (t, true) := by
      rw [sliceLoop, if_pos (le_of_eq hst)]
    rw [hstep]

/-- Witness for C4 with pause 0.08 and the stop event set at the wait's
start. -/
theorem C4_sliced_wait_witness :
    (0 : ℚ) ≤ 0 ∧ (humanMoveWait true 0 (2 / 25) 0).1 - 0 < 1 / 10 :=
  ⟨le_refl 0, (C4_sliced_wait (2 / 25) 0 0 (le_refl 0)).2.2⟩

/-- Claim C5 counterexample: the session loop's inter-movement pause is
sliced at 1 s, not ~100 ms: during a 3 s pause with the stop event set
at t = 0.001, the loop sleeps the full first 1 s slice and only observes
the signal at t = 1 — a latency of 0.999 s, far above the claimed 150 ms
bound, so not every sleep above ~100 ms is sliced at ~100 ms. -/
theorem C5_counterexample :
    movement_loop_pause (1 / 1000) 3 0 = 1 ∧
    (3 : ℚ) / 20 < 1 - 1 / 1000 := by
  refine ⟨?_, by norm_num⟩
  unfold movement_loop_pause
  have htr : (pyTrunc 3).toNat = 3 := by
    rw [pyTrunc_eq_floor (by norm_num)]
    have h3 : ⌊(3 : ℚ)⌋ = 3 := by norm_num
    rw [h3]
    rfl
  rw [htr]
  have h1 : sliceLoop 1 (1 / 1000) 3 0 = (1, true) := by
    rw [sliceLoop, if_neg (by norm_num), sliceLoop, if_pos (by norm_num)]
    norm_num
  rw [h1]

/-- Claim C5 amended: scheduler waits are sliced at 0.05 s and a stop
set during one is honoured within 0.1 s, but the session loop's
inter-movement pauses are sliced at 1 s (with a check before each slice
and before the sub-second remainder), so a stop set during a pause is
honoured only within one 1-second slice — not within ~150 ms. -/
theorem C5_sleep_latency (totalPause pause t stopTime : ℚ)
    (hts : t ≤ stopTime) :
    movement_loop_pause stopTime totalPause t - stopTime < 1 ∧
    (humanMoveWait true stopTime pause t).1 - stopTime < 1 / 10 := by
  refine ⟨?_, wait_latency pause t stopTime hts⟩
  unfold movement_loop_pause
  rcases hsl : sliceLoop 1 stopTime (pyTrunc totalPause).toNat t
    with ⟨t2, early⟩
  have hb := sliceLoop_bound 1 stopTime (pyTrunc totalPause).toNat t
  rw [hsl] at hb
  simp only at hb
  have hmod0 := pyMod_nonneg totalPause (by norm_num : (0 : ℚ) < 1)
  have hmod1 := pyMod_lt totalPause (by norm_num : (0 : ℚ) < 1)
  cases early
  · simp only
    split_ifs with hset
    · rcases hb with h2 | h2 <;> linarith
    · have : t2 < stopTime := lt_of_not_le hset
      linarith
  · simp only
    rcases hb with h2 | h2 <;> linarith

/-- Witness for C5 with a 3 s pause, a 0.01 s scheduler wait, start time
0 and stop instant 1/2. -/
theorem C5_sleep_latency_witness :
    (0 : ℚ) ≤ 1 / 2 ∧
    (movement_loop_pause (1 / 2) 3 0 - 1 / 2 < 1 ∧
      (humanMoveWait true (1 / 2) (1 / 100) 0).1 - 1 / 2 < 1 / 10) :=
  ⟨by norm_num, C5_sleep_latency 3 (1 / 100) 0 (1 / 2) (by norm_num)⟩

lemma humanMoveWait_no_evt (stopTime pause t : ℚ) :
    humanMoveWait false stopTime pause t =
      (t + max (1 / 1000) pause, false) := by
  unfold humanMoveWait
  rw [if_neg (fun hc => Bool.false_ne_true hc.2)]

lemma execLoop_no_stop (stopTime : ℚ) (delays : List ℚ) :
    ∀ (l : List (ℚ × ℚ)) (i : ℕ) (t : ℚ),
      (execLoop false stopTime delays l i t).2.1 = l.map truncPoint ∧
      (execLoop false stopTime delays l i t).2.2 = false := by
  intro l
  induction l with
  | nil => intro i t; exact ⟨rfl, rfl⟩
  | cons p rest ih =>
      intro i t
      rw [execLoop]
      rw [if_neg (fun hc => Bool.false_ne_true hc.1)]
      rw [humanMoveWait_no_evt]
      have hih := ih (i + 1) (t + max (1 / 1000) (delays.getD i (1 / 100)))
      simp only [List.map_cons]
      exact ⟨by rw [hih.1], hih.2⟩

lemma execLoop_stopped (stopTime : ℚ) (delays : List ℚ)
    (l : List (ℚ × ℚ)) (i : ℕ) (t : ℚ) (h : stopTime ≤ t) :
    execLoop true stopTime delays l i t = (t, [], false) := by
  cases l with
  | nil => rfl
  | cons p rest =>
      rw [execLoop, if_pos ⟨rfl, h⟩]

lemma execLoop_prefix (se : Bool) (stopTime : ℚ) (delays : List ℚ) :
    ∀ (l : List (ℚ × ℚ)) (i : ℕ) (t : ℚ),
      ∃ k, (execLoop se stopTime delays l i t).2.1 =
          (l.map truncPoint).take k ∧
        ((execLoop se stopTime delays l i t).2.2 = false →
          ((execLoop se stopTime delays l i t).2.1 = l.map truncPoint ∨
            (se = true ∧
              stopTime ≤ (execLoop se stopTime delays l i t).1))) := by
  intro l
  induction l with
  | nil =>
      intro i t
      exact ⟨0, rfl, fun _ => Or.inl rfl⟩
  | cons p rest ih =>
      intro i t
      rw [execLoop]
      split_ifs with hstop
      · exact ⟨0, rfl, fun _ => Or.inr hstop⟩
      · rcases hw : humanMoveWait se stopTime (delays.getD i (1 / 100)) t
          with ⟨t2, early⟩
        cases early with
        | true =>
            refine ⟨1, ?_, fun hc => absurd hc (by simp)⟩
            simp [List.map_cons]
        | false =>
            obtain ⟨k, hk, himp⟩ := ih (i + 1) t2
            refine ⟨k + 1, ?_, ?_⟩
            · simp only [List.map_cons, List.take_succ_cons]
              rw [hk]
            · intro he
              rcases himp he with hfull | hset
              · left
                simp only [List.map_cons]
                rw [hfull]
              · right
                exact hset

/-- Claim C9: when `human_move` runs without a stop event, it issues
every truncated intermediate point and then the exact truncated
destination as a final explicit move; when the stop event is set before
the loop begins, no move at all (in particular not the final one) is
issued; and in general the issued moves are either a prefix of the
truncated intermediate points (cancellation observed: no final
destination move appended) or all of them followed by the final
destination move. -/
theorem C9_final_exact_move (stop_evt : Bool) (stopTime t0 : ℚ)
    (pts : List (ℚ × ℚ)) (delays : List ℚ) (destination : ℚ × ℚ) :
    (pts ≠ [] → human_move_exec false stopTime pts delays destination t0 =
        pts.dropLast.map truncPoint ++ [truncPoint destination]) ∧
    (stopTime ≤ t0 →
        human_move_exec true stopTime pts delays destination t0 = []) ∧
    ((∃ k, human_move_exec stop_evt stopTime pts delays destination t0 =
        (pts.dropLast.map truncPoint).take k) ∨
      human_move_exec stop_evt stopTime pts delays destination t0 =
        pts.dropLast.map truncPoint ++ [truncPoint destination]) := by
  refine ⟨?_, ?_, ?_⟩
  · intro hne
    unfold human_move_exec
    rcases hex : execLoop false stopTime delays pts.dropLast 0 t0
      with ⟨tE, ms, e⟩
    have hns := execLoop_no_stop stopTime delays pts.dropLast 0 t0
    rw [hex] at hns
    simp only at hns
    rw [hns.1, hns.2]
    simp [List.isEmpty_iff, hne]
  · intro hst
    unfold human_move_exec
    rw [execLoop_stopped stopTime delays pts.dropLast 0 t0 hst]
    simp [hst]
  · unfold human_move_exec
    rcases hex : execLoop stop_evt stopTime delays pts.dropLast 0 t0
      with ⟨tE, ms, e⟩
    obtain ⟨k, hk, himp⟩ := execLoop_prefix stop_evt stopTime delays
      pts.dropLast 0 t0
    rw [hex] at hk himp
    simp only at hk himp
    cases e with
    | true =>
        left
        exact ⟨k, by simp [hk]⟩
    | false =>
        rcases himp rfl with hfull | hset
        · by_cases h1 : stop_evt = true ∧ stopTime ≤ tE
          · left; exact ⟨k, by simp [h1, hk]⟩
          · by_cases h2 : pts.isEmpty = true
            · left; exact ⟨k, by simp [h1, h2, hk]⟩
            · right; simp [h1, h2, hfull]
        · left
          exact ⟨k, by simp [hset, hk]⟩

/-- Witness for C9 with points (0,0), (7,3), destination (7,3). -/
theorem C9_final_exact_move_witness :
    ([((0 : ℚ), (0 : ℚ)), ((7 : ℚ), (3 : ℚ))] ≠ []) ∧
    human_move_exec false 0 [((0 : ℚ), (0 : ℚ)), ((7 : ℚ), (3 : ℚ))]
        [1 / 100] ((7 : ℚ), (3 : ℚ)) 0 =
      ([((0 : ℚ), (0 : ℚ)), ((7 : ℚ), (3 : ℚ))].dropLast.map truncPoint) ++
        [truncPoint ((7 : ℚ), (3 : ℚ))] :=
  ⟨by simp,
    (C9_final_exact_move false 0 0 [((0 : ℚ), (0 : ℚ)), ((7 : ℚ), (3 : ℚ))]
      [1 / 100] ((7 : ℚ), (3 : ℚ))).1 (by simp)⟩

lemma bezier1_zero (a b c d : ℚ) : bezier1 a b c d 0 = a := by
  unfold bezier1; ring

lemma bezier1_one (a b c d : ℚ) : bezier1 a b c d 1 = d := by
  unfold bezier1; ring

lemma mapRange_getD {α : Type} (g : ℕ → α) (n i : ℕ) (d : α)
    (hi : i < n) : ((List.range n).map g).getD i d = g i := by
  rw [List.getD_eq_getElem ((List.range n).map g) d
    (by simpa using hi)]
  simp

lemma natTraj_length (origin destination : ℚ × ℚ) (dist c1 c2 : ℚ)
    (noise : ℕ → ℚ × ℚ) (steps : ℕ) (h : ¬ dist < 1) :
    (natural_trajectory origin destination dist c1 c2 noise
      steps).length = steps := by
  unfold natural_trajectory
  rw [if_neg h]
  unfold cubic_bezier_curve
  simp

lemma natTraj_head (origin destination : ℚ × ℚ) (dist c1 c2 : ℚ)
    (noise : ℕ → ℚ × ℚ) (steps : ℕ) (h : ¬ dist < 1) (hs : 1 ≤ steps) :
    (natural_trajectory origin destination dist c1 c2 noise
        steps).head? =
      some ((pyTrunc (origin.1 + (noise 0).1) : ℚ),
        (pyTrunc (origin.2 + (noise 0).2) : ℚ)) := by
  unfold natural_trajectory
  rw [if_neg h]
  unfold cubic_bezier_curve
  rw [List.map_map, mapRange_head? _ _ hs]
  simp only [Function.comp_apply, linT_zero, ease_quartic_zero,
    bezier1_zero]

lemma natTraj_getLast (origin destination : ℚ × ℚ) (dist c1 c2 : ℚ)
    (noise : ℕ → ℚ × ℚ) (steps : ℕ) (h : ¬ dist < 1) (hs : 2 ≤ steps) :
    (natural_trajectory origin destination dist c1 c2 noise
        steps).getLast? =
      some ((pyTrunc (destination.1 + (noise (steps - 1)).1) : ℚ),
        (pyTrunc (destination.2 + (noise (steps - 1)).2) : ℚ)) := by
  unfold natural_trajectory
  rw [if_neg h]
  unfold cubic_bezier_curve
  rw [List.map_map, mapRange_getLast? _ _ (by omega)]
  simp only [Function.comp_apply, linT_last steps hs, ease_quartic_one,
    bezier1_one]

lemma scenario_getD (c1 c2 : ℚ) (n i : ℕ) (hi : i < n) :
    (natural_trajectory (0, 0) (100, 0) 100 c1 c2 zeroNoise n).getD i
        (0, 0) =
      ((pyTrunc (bezier1 0 30 70 100
          (ease_in_out_quartic (linT n i))) : ℚ),
       (pyTrunc (bezier1 0 c1 c2 0
          (ease_in_out_quartic (linT n i))) : ℚ)) := by
  unfold natural_trajectory
  rw [if_neg (by norm_num)]
  unfold cubic_bezier_curve
  rw [List.map_map, mapRange_getD _ _ _ _ hi]
  simp only [Function.comp_apply, zeroNoise]
  norm_num

lemma bezierX_mono {u v : ℚ} (h0 : 0 ≤ u) (huv : u ≤ v) (h1 : v ≤ 1) :
    bezier1 0 30 70 100 u ≤ bezier1 0 30 70 100 v := by
  have hv0 : 0 ≤ v := le_trans h0 huv
  have hu1 : u ≤ 1 := le_trans huv h1
  have hfac : (0 : ℚ) ≤ 90 + 30 * (u + v) -
      20 * (u ^ 2 + u * v + v ^ 2) := by
    nlinarith [mul_nonneg h0 (by linarith : (0 : ℚ) ≤ 1 - u),
      mul_nonneg hv0 (by linarith : (0 : ℚ) ≤ 1 - v),
      mul_nonneg h0 (by linarith : (0 : ℚ) ≤ 1 - v)]
  unfold bezier1
  nlinarith [mul_nonneg (sub_nonneg.2 huv) hfac]

/-- Claim C1 counterexample: for origin (0,0), destination (100,0)
(distance 100 ≥ epsilon) and a noise draw of (2,0) at the first point,
the generated trajectory's first point is (2,0), not the origin — the
Gaussian per-point noise of `cubic_bezier_curve` is added to every
point, the two endpoints included, so the first point does not equal the
origin within integer-rounding tolerance. -/
theorem C1_counterexample :
    IsDist ((0 : ℚ), (0 : ℚ)) ((100 : ℚ), (0 : ℚ)) 100 ∧
    (1 : ℚ) ≤ 100 ∧
    (natural_trajectory (0, 0) (100, 0) 100 0 0 endpointNoise 15).head? =
      some ((2 : ℚ), (0 : ℚ)) ∧
    ((2 : ℚ), (0 : ℚ)) ≠ (((0 : ℚ), (0 : ℚ)) : ℚ × ℚ) := by
  refine ⟨⟨by norm_num, by norm_num⟩, by norm_num, ?_, by norm_num⟩
  rw [natTraj_head _ _ _ _ _ _ _ (by norm_num) (by norm_num)]
  have h0 : endpointNoise 0 = (2, 0) := rfl
  rw [h0]
  norm_num
  constructor
  · rw [pyTrunc_eq_floor (by norm_num)]
    norm_num
  · rw [pyTrunc_eq_floor (by norm_num)]
    norm_num

/-- Claim C1 amended: the per-point noise is added to every trajectory
point, endpoints included; for every origin/destination with integer
coordinates at distance ≥ 1 and every draw whose noise at the two
endpoint indices is zero, the trajectory's first point equals the origin
and its last point equals the destination exactly. -/
theorem C1_endpoints (ox oy qx qy : ℤ) (dist c1 c2 : ℚ)
    (noise : ℕ → ℚ × ℚ) (steps : ℕ)
    (hd : IsDist ((ox : ℚ), (oy : ℚ)) ((qx : ℚ), (qy : ℚ)) dist)
    (h1 : 1 ≤ dist) (hs : 2 ≤ steps)
    (hn0 : noise 0 = (0, 0)) (hnl : noise (steps - 1) = (0, 0)) :
    (natural_trajectory ((ox : ℚ), (oy : ℚ)) ((qx : ℚ), (qy : ℚ)) dist
        c1 c2 noise steps).head? = some ((ox : ℚ), (oy : ℚ)) ∧
    (natural_trajectory ((ox : ℚ), (oy : ℚ)) ((qx : ℚ), (qy : ℚ)) dist
        c1 c2 noise steps).getLast? = some ((qx : ℚ), (qy : ℚ)) := by
  constructor
  · rw [natTraj_head _ _ _ _ _ _ _ (by linarith) (by omega)]
    rw [hn0]
    simp [pyTrunc_intCast]
  · rw [natTraj_getLast _ _ _ _ _ _ _ (by linarith) hs]
    rw [hnl]
    simp [pyTrunc_intCast]

/-- Witness for C1 amended, origin (0,0), destination (100,0), 15 steps,
all-zero noise. -/
theorem C1_endpoints_witness :
    (IsDist (((0 : ℤ) : ℚ), ((0 : ℤ) : ℚ))
        (((100 : ℤ) : ℚ), ((0 : ℤ) : ℚ)) 100 ∧ (1 : ℚ) ≤ 100 ∧
      (2 : ℕ) ≤ 15 ∧ zeroNoise 0 = (0, 0) ∧ zeroNoise (15 - 1) = (0, 0)) ∧
    ((natural_trajectory (((0 : ℤ) : ℚ), ((0 : ℤ) : ℚ))
        (((100 : ℤ) : ℚ), ((0 : ℤ) : ℚ)) 100 5 (-5) zeroNoise
        15).head? = some (((0 : ℤ) : ℚ), ((0 : ℤ) : ℚ)) ∧
      (natural_trajectory (((0 : ℤ) : ℚ), ((0 : ℤ) : ℚ))
        (((100 : ℤ) : ℚ), ((0 : ℤ) : ℚ)) 100 5 (-5) zeroNoise
        15).getLast? = some (((100 : ℤ) : ℚ), ((0 : ℤ) : ℚ))) :=
  ⟨⟨⟨by norm_num, by norm_num⟩, by norm_num, by norm_num, rfl, rfl⟩,
    C1_endpoints 0 0 100 0 100 5 (-5) zeroNoise 15
      ⟨by norm_num, by norm_num⟩ (by norm_num) (by norm_num) rfl rfl⟩

/-- Claim C7 counterexample: for step range (10, 10) the code computes
`int(10 + 0) + randint(5, 15)` steps — with the jitter draw 5 the
trajectory has 15 points, not exactly 10: the random jitter is always
added, so the scenario's claimed point count is wrong. -/
theorem C7_counterexample :
    adaptive_steps 10 10 100 5 = 15 ∧
    (natural_trajectory (0, 0) (100, 0) 100 0 0 zeroNoise 15).length =
      15 ∧ (15 : ℕ) ≠ 10 := by
  refine ⟨?_, ?_, by norm_num⟩
  · unfold adaptive_steps points_factor
    norm_num
    rw [pyTrunc_eq_floor (by norm_num)]
    norm_num
  · exact natTraj_length _ _ _ _ _ _ _ (by norm_num)

/-- Claim C7 amended: for origin (0,0), destination (100,0) and step
range (10,10), the trajectory has `10 + j` points where `j ∈ [5, 15]` is
the jitter draw (so 15–25 points, never 10); with an all-zero noise draw
its first point is (0,0), its last is (100,0), and its x coordinates are
monotonically non-decreasing, for every curvature draw. -/
theorem C7_scenario (j : ℕ) (c1 c2 : ℚ) (h5 : 5 ≤ j) (h15 : j ≤ 15) :
    adaptive_steps 10 10 100 (j : ℤ) = 10 + (j : ℤ) ∧
    (natural_trajectory (0, 0) (100, 0) 100 c1 c2 zeroNoise
      (10 + j)).length = 10 + j ∧
    (natural_trajectory (0, 0) (100, 0) 100 c1 c2 zeroNoise
      (10 + j)).head? = some ((0 : ℚ), (0 : ℚ)) ∧
    (natural_trajectory (0, 0) (100, 0) 100 c1 c2 zeroNoise
      (10 + j)).getLast? = some ((100 : ℚ), (0 : ℚ)) ∧
    (∀ i : ℕ, i + 1 < 10 + j →
      ((natural_trajectory (0, 0) (100, 0) 100 c1 c2 zeroNoise
        (10 + j)).getD i (0, 0)).1 ≤
      ((natural_trajectory (0, 0) (100, 0) 100 c1 c2 zeroNoise
        (10 + j)).getD (i + 1) (0, 0)).1) := by
  refine ⟨?_, natTraj_length _ _ _ _ _ _ _ (by norm_num), ?_, ?_, ?_⟩
  · unfold adaptive_steps points_factor
    norm_num
    rw [pyTrunc_eq_floor (by norm_num)]
    norm_num
  · rw [natTraj_head _ _ _ _ _ _ _ (by norm_num) (by omega)]
    have h0 : zeroNoise 0 = (0, 0) := rfl
    rw [h0]
    norm_num
    constructor <;> (rw [pyTrunc_eq_floor (by norm_num)]; norm_num)
  · rw [natTraj_getLast _ _ _ _ _ _ _ (by norm_num) (by omega)]
    have h0 : zeroNoise (10 + j - 1) = (0, 0) := rfl
    rw [h0]
    norm_num
    constructor <;> (rw [pyTrunc_eq_floor (by norm_num)]; norm_num)
  · intro i hi
    rw [scenario_getD c1 c2 (10 + j) i (by omega),
      scenario_getD c1 c2 (10 + j) (i + 1) (by omega)]
    have hin : i < 10 + j := by omega
    have hin1 : i + 1 < 10 + j := hi
    have hu0 : 0 ≤ linT (10 + j) i := linT_nonneg _ _ hin
    have hu1 : linT (10 + j) i ≤ 1 := linT_le_one _ _ hin
    have hv0 : 0 ≤ linT (10 + j) (i + 1) := linT_nonneg _ _ hin1
    have hv1 : linT (10 + j) (i + 1) ≤ 1 := linT_le_one _ _ hin1
    have huv : linT (10 + j) i ≤ linT (10 + j) (i + 1) :=
      linT_mono _ (Nat.le_succ i)
    have he0 : 0 ≤ ease_in_out_quartic (linT (10 + j) i) :=
      ease_quartic_nonneg hu0 hu1
    have he1 : ease_in_out_quartic (linT (10 + j) (i + 1)) ≤ 1 :=
      ease_quartic_le_one hv0 hv1
    have hee : ease_in_out_quartic (linT (10 + j) i) ≤
        ease_in_out_quartic (linT (10 + j) (i + 1)) :=
      ease_quartic_mono hu0 huv hv1
    show (pyTrunc (bezier1 0 30 70 100
        (ease_in_out_quartic (linT (10 + j) i))) : ℚ) ≤
      (pyTrunc (bezier1 0 30 70 100
        (ease_in_out_quartic (linT (10 + j) (i + 1)))) : ℚ)
    exact_mod_cast pyTrunc_mono (bezierX_mono he0 hee he1)

/-- Witness for C7 amended with jitter draw 5 and curvatures 0. -/
theorem C7_scenario_witness :
    ((5 : ℕ) ≤ 5 ∧ (5 : ℕ) ≤ 15) ∧
    (adaptive_steps 10 10 100 ((5 : ℕ) : ℤ) = 10 + ((5 : ℕ) : ℤ) ∧
    (natural_trajectory (0, 0) (100, 0) 100 0 0 zeroNoise
      (10 + 5)).length = 10 + 5 ∧
    (natural_trajectory (0, 0) (100, 0) 100 0 0 zeroNoise
      (10 + 5)).head? = some ((0 : ℚ), (0 : ℚ)) ∧
    (natural_trajectory (0, 0) (100, 0) 100 0 0 zeroNoise
      (10 + 5)).getLast? = some ((100 : ℚ), (0 : ℚ)) ∧
    (∀ i : ℕ, i + 1 < 10 + 5 →
      ((natural_trajectory (0, 0) (100, 0) 100 0 0 zeroNoise
        (10 + 5)).getD i (0, 0)).1 ≤
      ((natural_trajectory (0, 0) (100, 0) 100 0 0 zeroNoise
        (10 + 5)).getD (i + 1) (0, 0)).1)) :=
  ⟨⟨le_refl 5, by norm_num⟩, C7_scenario 5 0 0 (le_refl 5) (by norm_num)⟩

end MouseJuggler
